import Mathlib

/-!
Verification of the Campus-AI backend (`app.py`) against its specification.

The program is a Flask service.  We give a shallow embedding of its pure
core: strings are modelled as `List Char`, the in-memory session store as an
association list, `datetime.now()` as a record of a day number (days since
1970-01-01) together with an hour and a minute, and the external LLM as an
oracle function passed to the handler.  The regular-expression search used by
`extract_timetable` is modelled by a direct executable matcher for the one
concrete pattern the program uses.
-/

/-! ## Character utilities (ASCII fragment of the Python string methods) -/

/-- Model of `str.lower` on a single character (ASCII fragment): uppercase
letters are shifted by 32, everything else is unchanged. -/
def pyLower (c : Char) : Char :=
  if 65 ≤ c.toNat ∧ c.toNat ≤ 90 then Char.ofNat (c.toNat + 32) else c

/-- The whitespace class used by `str.strip` and by the regex class `\s`
(ASCII fragment): space, tab, newline, carriage return, vertical tab, form
feed. -/
def isSpaceCh (c : Char) : Bool :=
  c.toNat = 32 || c.toNat = 9 || c.toNat = 10 || c.toNat = 13 ||
  c.toNat = 11 || c.toNat = 12

/-- The digit class used by the regex class `\d` (ASCII fragment). -/
def isDigitCh (c : Char) : Bool :=
  48 ≤ c.toNat && c.toNat ≤ 57

/-- The word-character class used by the regex class `\w` (ASCII fragment):
letters, digits and underscore. -/
def isWordCh (c : Char) : Bool :=
  isDigitCh c || (97 ≤ c.toNat && c.toNat ≤ 122) ||
  (65 ≤ c.toNat && c.toNat ≤ 90) || c.toNat = 95

/-- The apostrophe character, used in several reply strings of the program. -/
def apoCh : Char := Char.ofNat 39

/-- Left brace character (for the JSON rendering of chat turns). -/
def lbrCh : Char := Char.ofNat 123

/-- Right brace character (for the JSON rendering of chat turns). -/
def rbrCh : Char := Char.ofNat 125

/-- Calendar emoji U+1F4C5 used by the date and Sunday replies. -/
def emCal : Char := Char.ofNat 0x1F4C5

/-- Clock emoji U+1F550 used by the time reply. -/
def emClk : Char := Char.ofNat 0x1F550

/-- Books emoji U+1F4DA used by the timetable reply. -/
def emBook : Char := Char.ofNat 0x1F4DA

/-- Clipboard emoji U+1F4CB used by the day-order reply. -/
def emClip : Char := Char.ofNat 0x1F4CB

/-! ## String (`List Char`) utilities -/

/-- Remove trailing whitespace (the right half of `str.strip`). -/
def rstripWs (s : List Char) : List Char :=
  (s.reverse.dropWhile isSpaceCh).reverse

/-- Model of `str.strip()`: remove leading and trailing whitespace. -/
def pyStrip (s : List Char) : List Char :=
  rstripWs (s.dropWhile isSpaceCh)

/-- Model of the Python substring test `pat in hay`. -/
def containsSub (hay pat : List Char) : Bool :=
  match hay with
  | [] => pat.isEmpty
  | _ :: t => pat.isPrefixOf hay || containsSub t pat

/-- Model of `str.splitlines()` for text whose only line separator is the
newline character (the corpus is assembled by joining page texts with
newlines). -/
def splitlines (s : List Char) : List (List Char) :=
  if s = [] then []
  else
    let parts := s.splitOn '\n'
    if s.getLast? = some '\n' then parts.dropLast else parts

/-- The decimal digit character for a value below ten. -/
def digitCh : Nat → Char
  | 0 => '0' | 1 => '1' | 2 => '2' | 3 => '3' | 4 => '4'
  | 5 => '5' | 6 => '6' | 7 => '7' | 8 => '8' | _ => '9'

/-- Fuel-driven digit expansion (structural recursion, so that concrete
instances reduce inside the kernel). -/
def natDigitsAux : Nat → Nat → List Char
  | 0, _ => []
  | fuel + 1, n =>
    if n < 10 then [digitCh n]
    else natDigitsAux fuel (n / 10) ++ [digitCh (n % 10)]

/-- Decimal representation of a natural number, as produced by Python
`str(n)` for a nonnegative int. -/
def natDigits (n : Nat) : List Char :=
  natDigitsAux (n + 1) n

/-- Zero-padded two-digit rendering, as produced by `strftime` fields
`%d`, `%I` and `%M`. -/
def pad2 (n : Nat) : List Char :=
  if n < 10 then '0' :: natDigits n else natDigits n

/-- Model of the Python slice `l[-n:]`. -/
def lastN (n : Nat) (l : List α) : List α :=
  l.drop (l.length - n)

/-! ## Date model

`datetime.now()` is modelled as a day number (days since 1970-01-01,
which was a Thursday) plus the time of day; `timedelta(days=k)` adds `k`
to the day number. -/

/-- Model of `datetime.now()`: the day number plus the time of day. -/
structure PyNow where
  days : Nat
  hour : Nat
  minute : Nat
deriving DecidableEq, Repr

/-- Model of `date.weekday()`: Monday is 0 .. Sunday is 6.  Day number 0
(1970-01-01) was a Thursday, weekday 3. -/
def pyWeekday (d : Nat) : Nat :=
  (d + 3) % 7

/-- Convert a day number to a Gregorian (year, month, day) triple, the
arithmetic the `datetime` library performs for `strftime`.  Standard
era-based civil-from-days computation. -/
def civilFromDays (n : Nat) : Nat × Nat × Nat :=
  let z := n + 719468
  let era := z / 146097
  let doe := z % 146097
  let yoe := (doe - doe / 1460 + doe / 36524 - doe / 146096) / 365
  let y := yoe + era * 400
  let doy := doe - (365 * yoe + yoe / 4 - yoe / 100)
  let mp := (5 * doy + 2) / 153
  let d := doy - (153 * mp + 2) / 5 + 1
  let m := if mp < 10 then mp + 3 else mp - 9
  (if m ≤ 2 then y + 1 else y, m, d)

/-- Full weekday names in `date.weekday()` order, as produced by
`strftime` `%A` in the C locale. -/
def weekdayNames : List (List Char) :=
  ["Monday".toList, "Tuesday".toList, "Wednesday".toList, "Thursday".toList,
   "Friday".toList, "Saturday".toList, "Sunday".toList]

/-- Full month names, as produced by `strftime` `%B` in the C locale. -/
def monthNames : List (List Char) :=
  ["January".toList, "February".toList, "March".toList, "April".toList,
   "May".toList, "June".toList, "July".toList, "August".toList,
   "September".toList, "October".toList, "November".toList, "December".toList]

/-- Weekday name of a day number. -/
def weekdayName (w : Nat) : List Char :=
  weekdayNames.getD w ("Monday".toList)

/-- Month name of a month number in 1..12. -/
def monthName (m : Nat) : List Char :=
  monthNames.getD (m - 1) ("January".toList)

/-- Model of `now.strftime('%A, %B %d, %Y')`. -/
def fmtDate (d : Nat) : List Char :=
  let ymd := civilFromDays d
  weekdayName (pyWeekday d) ++ ", ".toList ++ monthName ymd.2.1 ++
    " ".toList ++ pad2 ymd.2.2 ++ ", ".toList ++ natDigits ymd.1

/-- Model of `now.strftime('%I:%M %p')` (12-hour clock, C locale). -/
def fmtTime (hour minute : Nat) : List Char :=
  let h12 := if hour % 12 = 0 then 12 else hour % 12
  pad2 h12 ++ ":".toList ++ pad2 minute ++ " ".toList ++
    (if hour < 12 then "AM".toList else "PM".toList)

/-! ## `get_day_order` (source lines 111-118) -/

/-- Model of `get_day_order(date)`: `None` on Sunday, otherwise
`((weekday - 1) % 6) + 1` with Python modulo (the Python `%` on a
negative left operand returns a nonnegative result, as `Int.emod` does). -/
def get_day_order (d : Nat) : Option Nat :=
  let weekday := pyWeekday d
  if weekday = 6 then none
  else some ((((weekday : Int) - 1) % 6 + 1).toNat)

/-- The next non-Sunday day after `d` (used to state the cycling clause of
the day-order claim). -/
def nextSchoolDay (d : Nat) : Nat :=
  if pyWeekday (d + 1) = 6 then d + 2 else d + 1

/-! ## `extract_timetable` (source lines 74-83)

The function searches `pdf_text` with the regex
`DAY\s*ORDER\s*{n}.*?(?=DAY\s*ORDER\s*\d|$)` under `DOTALL` and
`IGNORECASE`, and strips the matched span.  We model the search directly:
the pattern has no nondeterminism (whitespace runs are followed by
non-whitespace literals, so greedy `\s*` never needs backtracking), the
leftmost match of the whole regex starts at the leftmost match of the
marker `DAY\s*ORDER\s*{n}` because the tail `.*?(?=...|$)` always
succeeds, and the lazy `.*?` stops at the first position where the
lookahead succeeds.  Without `MULTILINE`, `$` matches at the end of the
text and also just before a final newline. -/

/-- The literal `day`, lower case. -/
def dayLit : List Char := ['d', 'a', 'y']

/-- The literal `order`, lower case. -/
def orderLit : List Char := ['o', 'r', 'd', 'e', 'r']

/-- Case-insensitive literal matcher: `matchCI pat s` consumes a prefix of
`s` whose lowercase image is `pat` (given lower case) and returns the rest,
or fails. -/
def matchCI : List Char → List Char → Option (List Char)
  | [], s => some s
  | _ :: _, [] => none
  | p :: ps, c :: cs => if pyLower c = p then matchCI ps cs else none

/-- Greedy `\s*`: drop the maximal run of whitespace. -/
def skipWs (s : List Char) : List Char :=
  s.dropWhile isSpaceCh

/-- Match `DAY\s*ORDER\s*` followed by the literal `digs` at the head of
`s`, returning the unconsumed rest. -/
def matchMarkerTail (digs s : List Char) : Option (List Char) :=
  match matchCI dayLit s with
  | none => none
  | some s1 =>
    match matchCI orderLit (skipWs s1) with
    | none => none
    | some s2 => matchCI digs (skipWs s2)

/-- Match the lookahead pattern `DAY\s*ORDER\s*\d` at the head of `s`. -/
def matchAnyMarker (s : List Char) : Bool :=
  match matchCI dayLit s with
  | none => false
  | some s1 =>
    match matchCI orderLit (skipWs s1) with
    | none => false
    | some s2 =>
      match skipWs s2 with
      | [] => false
      | c :: _ => isDigitCh c

/-- Offset, within the text following a matched marker, at which the lazy
`.*?` stops: the first position where the lookahead alternation
`DAY\s*ORDER\s*\d|$` succeeds.  Without `MULTILINE`, `$` succeeds at the
end of the text and also just before a final newline. -/
def findStop : List Char → Nat
  | [] => 0
  | c :: t =>
    if matchAnyMarker (c :: t) then 0
    else if c = '\n' ∧ t = [] then 0
    else 1 + findStop t

/-- Leftmost match of `DAY\s*ORDER\s*digs`: returns the start index and the
number of characters the marker consumed. -/
def findMarkerPos (digs : List Char) : List Char → Option (Nat × Nat)
  | [] => none
  | c :: t =>
    match matchMarkerTail digs (c :: t) with
    | some rem => some (0, (c :: t).length - rem.length)
    | none => (findMarkerPos digs t).map (fun p => (p.1 + 1, p.2))

/-- The fallback reply `f"Timetable for Day Order {day_order} not found."`. -/
def notFoundText (n : Nat) : List Char :=
  "Timetable for Day Order ".toList ++ natDigits n ++ " not found.".toList

/-- Model of `extract_timetable(day_order, pdf_text)`: the stripped regex
match, or the not-found message. -/
def extract_timetable (n : Nat) (text : List Char) : List Char :=
  match findMarkerPos (natDigits n) text with
  | none => notFoundText n
  | some (i, k) =>
    pyStrip ((text.drop i).take (k + findStop (text.drop (i + k))))

/-- Variant of the lazy-stop offset written from the words of the
specification: the span ends just before the next marker
`DAY ORDER <digit>` or at the end of the text (no special treatment of a
final newline). -/
def findStopSpec : List Char → Nat
  | [] => 0
  | c :: t =>
    if matchAnyMarker (c :: t) then 0
    else 1 + findStopSpec t

/-- Modelled from the words of the specification: the text span starting at
the first case-insensitive occurrence of the marker `DAY ORDER n` and
ending just before the next marker `DAY ORDER <digit>` or at the end of
the text, stripped; the not-found message when no marker occurs. -/
def extractTimetableSpec (n : Nat) (text : List Char) : List Char :=
  match findMarkerPos (natDigits n) text with
  | none => notFoundText n
  | some (i, k) =>
    pyStrip ((text.drop i).take (k + findStopSpec (text.drop (i + k))))

/-- Declarative statement that the marker `DAY\s*ORDER\s*{n}`
(case-insensitive) occurs at the head of `s`. -/
def MarkerAt (n : Nat) (s : List Char) : Prop :=
  ∃ d w1 o w2 rest,
    s = d ++ w1 ++ o ++ w2 ++ natDigits n ++ rest ∧
    d.map pyLower = dayLit ∧ (∀ c ∈ w1, isSpaceCh c) ∧
    o.map pyLower = orderLit ∧ (∀ c ∈ w2, isSpaceCh c)

/-! ## `get_relevant_context` (source lines 87-107) -/

/-- Single-pass tokenizer: `cur` is the current word-character run,
reversed. -/
def wordTokensAux : List Char → List Char → List (List Char)
  | [], cur => if cur = [] then [] else [cur.reverse]
  | c :: t, cur =>
    if isWordCh c then wordTokensAux t (c :: cur)
    else if cur = [] then wordTokensAux t []
    else cur.reverse :: wordTokensAux t []

/-- The maximal runs of word characters in a string: model of
`re.findall(r"\w+", s)`. -/
def wordTokens (s : List Char) : List (List Char) :=
  wordTokensAux s []

/-- The query tokens of `get_relevant_context`: lowercase word tokens of
the message that are longer than two characters.  (The source builds a
set; only membership is ever used, so a list is a faithful model.) -/
def queryTokens (message : List Char) : List (List Char) :=
  (wordTokens (message.map pyLower)).filter (fun t => 2 < t.length)

/-- Total length of the kept lines. -/
def sumLen (ls : List (List Char)) : Nat :=
  (ls.map List.length).sum

/-- The line-scanning loop of `get_relevant_context`: keep each line that
contains some token (case-insensitively), stopping as soon as the total
kept length reaches the budget. -/
def keepLines (toks : List (List Char)) (maxChars : Nat) :
    List (List Char) → List (List Char) → List (List Char)
  | [], acc => acc
  | line :: rest, acc =>
    let acc2 :=
      if toks.any (fun tk => containsSub (line.map pyLower) tk) then
        acc ++ [pyStrip line]
      else acc
    if maxChars ≤ sumLen acc2 then acc2
    else keepLines toks maxChars rest acc2

/-- Model of `get_relevant_context(message, pdf_text, max_chars)`. -/
def get_relevant_context (message pdfText : List Char)
    (maxChars : Nat := 1200) : List Char :=
  if pdfText = [] then []
  else
    let toks := queryTokens message
    if toks = [] then pdfText.take maxChars
    else
      let ms := keepLines toks maxChars (splitlines pdfText) []
      if ms = [] then pdfText.take maxChars
      else (List.intercalate ['\n'] ms).take maxChars

/-! ## The `lru_cache` wrapper on `extract_timetable`

`extract_timetable` is decorated with `functools.lru_cache(maxsize=8)`.
The cache is modelled as an association list in most-recently-used-first
order: a hit returns the stored value and moves its entry to the front, a
miss computes the value, inserts it at the front and keeps at most eight
entries. -/

/-- A cache for `extract_timetable`: keys are `(day_order, pdf_text)`
pairs, values are results, most recently used first. -/
abbrev TTCache := List ((Nat × List Char) × List Char)

/-- One call of the cached `extract_timetable`: result plus new cache. -/
def cachedExtract (cache : TTCache) (n : Nat) (text : List Char) :
    List Char × TTCache :=
  match cache.find? (fun e => e.1 == (n, text)) with
  | some e => (e.2, e :: cache.eraseP (fun e2 => e2.1 == (n, text)))
  | none =>
    let v := extract_timetable n text
    (v, (((n, text), v) :: cache).take 8)

/-- Well-formedness of a cache: every stored value is the value
`extract_timetable` computes for its key. -/
def CacheWF (cache : TTCache) : Prop :=
  ∀ e ∈ cache, e.2 = extract_timetable e.1.1 e.1.2

/-! ## The session store and the `/chat` handler (source lines 122-231) -/

/-- A chat turn: `{"role": r, "content": c}`. -/
abbrev Turn := List Char × List Char

/-- The process-wide `sessions` dict, as an association list from session
identifier to turn list. -/
abbrev SessionStore := List (List Char × List Turn)

/-- Dictionary lookup `sessions.get(sid)`. -/
def getSession (store : SessionStore) (sid : List Char) : Option (List Turn) :=
  (store.find? (fun e => e.1 == sid)).map (fun e => e.2)

/-- Dictionary update `sessions[sid] = v`. -/
def setSession (store : SessionStore) (sid : List Char) (v : List Turn) :
    SessionStore :=
  match store with
  | [] => [(sid, v)]
  | e :: t => if e.1 == sid then (sid, v) :: t else e :: setSession t sid v

/-- The role string of user turns. -/
def roleUser : List Char := "user".toList

/-- The role string of assistant turns. -/
def roleAssistant : List Char := "assistant".toList

/-- Lower-case hexadecimal digit, as produced by Python string escapes. -/
def hexDigit (n : Nat) : Char :=
  if n < 10 then Char.ofNat (48 + n) else Char.ofNat (87 + n)

/-- Four lower-case hexadecimal digits. -/
def hex4 (n : Nat) : List Char :=
  [hexDigit (n / 4096 % 16), hexDigit (n / 256 % 16),
   hexDigit (n / 16 % 16), hexDigit (n % 16)]

/-- `json.dumps` escaping of one character (default `ensure_ascii=True`):
quote, backslash and the short control escapes, `\uXXXX` for other control
or non-ASCII characters, UTF-16 surrogate pairs beyond the basic plane. -/
def jsonEscapeChar (c : Char) : List Char :=
  if c = '"' then ['\\', '"']
  else if c = '\\' then ['\\', '\\']
  else if c = '\n' then ['\\', 'n']
  else if c = '\t' then ['\\', 't']
  else if c = '\x0d' then ['\\', 'r']
  else if c.toNat = 8 then ['\\', 'b']
  else if c.toNat = 12 then ['\\', 'f']
  else if c.toNat < 32 then '\\' :: 'u' :: hex4 c.toNat
  else if c.toNat < 127 then [c]
  else if c.toNat < 65536 then '\\' :: 'u' :: hex4 c.toNat
  else
    ('\\' :: 'u' :: hex4 (55296 + (c.toNat - 65536) / 1024)) ++
    ('\\' :: 'u' :: hex4 (56320 + (c.toNat - 65536) % 1024))

/-- A JSON string literal. -/
def jsonString (s : List Char) : List Char :=
  '"' :: (s.map jsonEscapeChar).flatten ++ ['"']

/-- One turn as rendered by `json.dumps` (default separators): the object
`{"role": <role>, "content": <content>}`. -/
def jsonTurn (t : Turn) : List Char :=
  [lbrCh] ++ jsonString "role".toList ++ ": ".toList ++ jsonString t.1 ++
  ", ".toList ++ jsonString "content".toList ++ ": ".toList ++
  jsonString t.2 ++ [rbrCh]

/-- A turn list as rendered by `json.dumps` (default separators). -/
def jsonTurns (ts : List Turn) : List Char :=
  '[' :: List.intercalate ", ".toList (ts.map jsonTurn) ++ [']']

/-- The prompt template of the LLM branch of the handler. -/
def buildPrompt (ctx : List Char) (recent : List Turn) (message : List Char) :
    List Char :=
  "You are CampusGuide AI for The New College.\n\nCollege Data:\n".toList ++
  ctx ++ "\n\nRecent Chat:\n".toList ++ jsonTurns recent ++
  "\n\nUser: ".toList ++ message ++
  "\n\nInstructions:\n- Answer briefly and clearly\n- Use college data for facts\n- Keep responses under 150 words\n- Use emojis sparingly\n".toList

/-- The rejection reply for an empty message. -/
def pleaseText : List Char := "Please ask a question.".toList

/-- The date reply (calendar emoji, then `Today is <formatted date>.`). -/
def dateReply (now : PyNow) : List Char :=
  [emCal, ' '] ++ "Today is ".toList ++ fmtDate now.days ++ ['.']

/-- The time reply (clock emoji, then `Current time is <formatted time>.`). -/
def timeReply (now : PyNow) : List Char :=
  [emClk, ' '] ++ "Current time is ".toList ++ fmtTime now.hour now.minute ++
    ['.']

/-- The Sunday reply of the timetable branch. -/
def sundayNoClassText : List Char :=
  [emCal, ' '] ++ "It".toList ++ [apoCh] ++ "s Sunday - No classes today!".toList

/-- The timetable reply for a school day. -/
def timetableReply (k : Nat) (collegeData : List Char) : List Char :=
  [emBook, ' '] ++ "**Day Order ".toList ++ natDigits k ++
    "** Timetable:\n\n".toList ++ extract_timetable k collegeData

/-- The Sunday reply of the day-order branch. -/
def sundayNoOrderText : List Char :=
  [emCal, ' '] ++ "It".toList ++ [apoCh] ++
    "s Sunday - No day order today.".toList

/-- The day-order reply for a school day. -/
def orderReply (k : Nat) : List Char :=
  [emClip, ' '] ++ "Today is **Day Order ".toList ++ natDigits k ++ "**.".toList

/-- The keyword list of the date branch. -/
def dateKws : List (List Char) := ["date".toList, "what day".toList]

/-- The keyword list of the time branch. -/
def timeKws : List (List Char) := ["time".toList, "what time".toList]

/-- The keyword list of the timetable branch. -/
def ttKws : List (List Char) :=
  ["timetable".toList, "schedule".toList, "class".toList, "period".toList]

/-- The target-date resolution shared by the timetable and day-order
branches: tomorrow, the day after, or today. -/
def resolveTarget (now : PyNow) (lower : List Char) : Nat :=
  if containsSub lower "tomorrow".toList then now.days + 1
  else if containsSub lower "day after".toList then now.days + 2
  else now.days

/-- The result of one `/chat` request: reply, HTTP status and the new
session store. -/
structure ChatResult where
  reply : List Char
  status : Nat
  sessions : SessionStore
deriving DecidableEq, Repr

/-- Finish a non-error branch of the handler: append the assistant turn to
the session and answer with status 200. -/
def respond (store : SessionStore) (sid : List Char) (hist : List Turn)
    (reply : List Char) : ChatResult :=
  ⟨reply, 200, setSession store sid (hist ++ [(roleAssistant, reply)])⟩

/-- Model of the `POST /chat` handler.  `llm` is the external
text-generation service (`model.generate_content(...).text`), assumed to
return normally; `now` is `datetime.now()`; `collegeData` is the memoized
corpus; `rawMsg` and `sid` are the `message` and `sessionId` fields of the
request body (a missing field is the empty string resp. `default`). -/
def chat (llm : List Char → List Char) (now : PyNow)
    (collegeData : List Char) (rawMsg sid : List Char)
    (store : SessionStore) : ChatResult :=
  let message := pyStrip rawMsg
  if message = [] then ⟨pleaseText, 400, store⟩
  else
    let hist0 := (getSession store sid).getD []
    let hist1 := if 6 < hist0.length then lastN 6 hist0 else hist0
    let hist2 := hist1 ++ [(roleUser, message)]
    let lower := message.map pyLower
    if dateKws.any (fun k => containsSub lower k) then
      respond store sid hist2 (dateReply now)
    else if timeKws.any (fun k => containsSub lower k) then
      respond store sid hist2 (timeReply now)
    else if ttKws.any (fun k => containsSub lower k) then
      match get_day_order (resolveTarget now lower) with
      | none => respond store sid hist2 sundayNoClassText
      | some k => respond store sid hist2 (timetableReply k collegeData)
    else if containsSub lower "day order".toList then
      match get_day_order (resolveTarget now lower) with
      | none => respond store sid hist2 sundayNoOrderText
      | some k => respond store sid hist2 (orderReply k)
    else
      let recent := if 4 < hist2.length then lastN 4 hist2 else hist2
      let ctx := get_relevant_context message collegeData 1200
      let prompt := buildPrompt ctx (lastN 2 recent) message
      respond store sid hist2 (llm prompt)

/-- The history trim the handler performs before appending: keep the last
six turns once the list is longer than six. -/
def trim6 (h : List Turn) : List Turn :=
  if 6 < h.length then lastN 6 h else h

/-- The example message of the specification, `What's the date?`. -/
def whatsTheDateMsg : List Char :=
  "What".toList ++ [apoCh] ++ "s the date?".toList

/-! ## Theorems -/

/-- `get_day_order` on a non-Sunday weekday, unfolded. -/
theorem gdo_eq (d : Nat) (h : pyWeekday d ≠ 6) :
    get_day_order d = some ((((pyWeekday d : Int) - 1) % 6 + 1).toNat) := by
  simp [get_day_order, h]

/-- `get_day_order` on a Sunday, unfolded. -/
theorem gdo_none (d : Nat) (h : pyWeekday d = 6) : get_day_order d = none := by
  simp [get_day_order, h]

/-- C2: for every date, `get_day_order` returns the sentinel `none` exactly
on Sundays (weekday 6 in the Monday=0 convention); on any other date it
returns `((weekday - 1) mod 6) + 1` (Python modulo), a value in `[1, 6]`,
and the value cycles with period 6 across consecutive non-rest days: the
next school day always has day order `k % 6 + 1` when the current one has
day order `k`. -/
theorem get_day_order_correct (d : Nat) :
    (get_day_order d = none ↔ pyWeekday d = 6) ∧
    (pyWeekday d ≠ 6 →
      get_day_order d = some ((((pyWeekday d : Int) - 1) % 6 + 1).toNat) ∧
      ∀ k, get_day_order d = some k → 1 ≤ k ∧ k ≤ 6) ∧
    (∀ j k, get_day_order d = some j →
      get_day_order (nextSchoolDay d) = some k → k = j % 6 + 1) := by
  have h7 : pyWeekday d < 7 := Nat.mod_lt _ (by omega)
  refine ⟨?_, ?_, ?_⟩
  · constructor
    · intro h
      by_contra hne
      rw [gdo_eq d hne] at h
      exact Option.noConfusion h
    · exact gdo_none d
  · intro h
    refine ⟨gdo_eq d h, ?_⟩
    intro k hk
    rw [gdo_eq d h] at hk
    have := Option.some.inj hk
    simp only [pyWeekday] at this h ⊢
    omega
  · intro j k hj hk
    have hd : pyWeekday d ≠ 6 := by
      intro h6
      rw [gdo_none d h6] at hj
      exact Option.noConfusion hj
    rw [gdo_eq d hd] at hj
    have hj2 := Option.some.inj hj
    by_cases h1 : pyWeekday (d + 1) = 6
    · have hn : nextSchoolDay d = d + 2 := by simp [nextSchoolDay, h1]
      have h2 : pyWeekday (d + 2) ≠ 6 := by
        simp only [pyWeekday] at h1 ⊢
        omega
      rw [hn, gdo_eq _ h2] at hk
      have hk2 := Option.some.inj hk
      simp only [pyWeekday] at hj2 hk2 h1 hd
      omega
    · have hn : nextSchoolDay d = d + 1 := by simp [nextSchoolDay, h1]
      rw [hn, gdo_eq _ h1] at hk
      have hk2 := Option.some.inj hk
      simp only [pyWeekday] at hj2 hk2 h1 hd
      omega

/-- Witness for C2 at day number 0 (1970-01-01, a Thursday, day order 3;
the next school day is Friday with day order 4). -/
theorem get_day_order_correct_witness :
    get_day_order 0 = some ((((pyWeekday 0 : Int) - 1) % 6 + 1).toNat) ∧
    (1 ≤ 3 ∧ 3 ≤ 6) ∧ (4 : Nat) = 3 % 6 + 1 :=
  ⟨((get_day_order_correct 0).2.1 (by decide)).1,
   ((get_day_order_correct 0).2.1 (by decide)).2 3 (by decide),
   (get_day_order_correct 0).2.2 3 4 (by decide) (by decide)⟩

/-- C3: `get_relevant_context` never returns more than `maxChars`
characters; and when the query has no alphanumeric token longer than two
characters, it returns exactly the first `maxChars` characters of the
document text. -/
theorem get_relevant_context_bounded (message pdfText : List Char)
    (maxChars : Nat) :
    (get_relevant_context message pdfText maxChars).length ≤ maxChars ∧
    (queryTokens message = [] →
      get_relevant_context message pdfText maxChars = pdfText.take maxChars) := by
  constructor
  · unfold get_relevant_context
    dsimp only
    split_ifs <;> simp [List.length_take]
  · intro h
    unfold get_relevant_context
    dsimp only
    rw [h]
    split_ifs with h1 h2 h3
    · simp [h1]
    · rfl
    · exact absurd rfl h2
    · exact absurd rfl h2

/-- Witness for C3: a query whose tokens are all short forces the
first-characters fallback, and the bound holds there. -/
theorem get_relevant_context_bounded_witness :
    (get_relevant_context "ab cd".toList "hello world".toList 4).length ≤ 4 ∧
    get_relevant_context "ab cd".toList "hello world".toList 4 =
      "hello world".toList.take 4 :=
  ⟨(get_relevant_context_bounded "ab cd".toList "hello world".toList 4).1,
   (get_relevant_context_bounded "ab cd".toList "hello world".toList 4).2
     (by decide)⟩

/-- `Char.ofNat` below the surrogate range round-trips through `toNat`. -/
theorem toNat_ofNat_lt {n : Nat} (h : n < 55296) : (Char.ofNat n).toNat = n := by
  have hv : n.isValidChar := Or.inl h
  simp [Char.ofNat, hv, Char.ofNatAux, Char.toNat, UInt32.toNat,
    BitVec.toNat_ofNatLt]

/-- A whitespace character is not an uppercase letter, so `pyLower` fixes
it. -/
theorem pyLower_space {c : Char} (h : isSpaceCh c = true) : pyLower c = c := by
  simp only [isSpaceCh, Bool.or_eq_true, decide_eq_true_eq] at h
  unfold pyLower
  rw [if_neg (by omega)]

/-- A character whose `pyLower` image has a code point above 32 is not
whitespace. -/
theorem not_space_of_pyLower {c x : Char} (hx : 32 < x.toNat)
    (h : pyLower c = x) : isSpaceCh c = false := by
  by_contra hc
  rw [Bool.not_eq_false] at hc
  rw [pyLower_space hc] at h
  subst h
  simp only [isSpaceCh, Bool.or_eq_true, decide_eq_true_eq] at hc
  omega

/-- `pyLower` fixes digit characters. -/
theorem pyLower_digit {c : Char} (h : isDigitCh c = true) : pyLower c = c := by
  simp only [isDigitCh, Bool.and_eq_true, decide_eq_true_eq] at h
  unfold pyLower
  rw [if_neg (by omega)]

/-- If `pyLower c` is a digit character then `c` is that very character
(no uppercase letter maps to a digit). -/
theorem eq_of_pyLower_digit {c x : Char} (hx : isDigitCh x = true)
    (h : pyLower c = x) : c = x := by
  simp only [isDigitCh, Bool.and_eq_true, decide_eq_true_eq] at hx
  unfold pyLower at h
  split_ifs at h with hcase
  · have hval : (Char.ofNat (c.toNat + 32)).toNat = c.toNat + 32 :=
      toNat_ofNat_lt (by omega)
    have := congrArg Char.toNat h
    rw [hval] at this
    omega
  · exact h

/-- A digit character is not whitespace. -/
theorem digit_not_space {c : Char} (h : isDigitCh c = true) :
    isSpaceCh c = false := by
  simp only [isDigitCh, Bool.and_eq_true, decide_eq_true_eq] at h
  simp only [isSpaceCh, Bool.or_eq_false_iff, decide_eq_false_iff_not]
  omega

/-- `digitCh` always produces a digit character. -/
theorem digitCh_isDigit (n : Nat) : isDigitCh (digitCh n) = true := by
  unfold digitCh
  split <;> decide

/-- Every character of `natDigitsAux` is a digit. -/
theorem natDigitsAux_digits (fuel n : Nat) :
    ∀ c ∈ natDigitsAux fuel n, isDigitCh c = true := by
  induction fuel generalizing n with
  | zero => intro c hc; exact absurd hc (List.not_mem_nil c)
  | succ fuel ih =>
    intro c hc
    unfold natDigitsAux at hc
    split_ifs at hc with h
    · rcases List.mem_singleton.mp hc with rfl
      exact digitCh_isDigit n
    · rcases List.mem_append.mp hc with h2 | h2
      · exact ih _ c h2
      · rcases List.mem_singleton.mp h2 with rfl
        exact digitCh_isDigit (n % 10)

/-- Every character of `natDigits n` is a digit. -/
theorem natDigits_digits (n : Nat) : ∀ c ∈ natDigits n, isDigitCh c = true :=
  natDigitsAux_digits (n + 1) n

/-- `natDigitsAux` is nonempty whenever it has fuel. -/
theorem natDigitsAux_ne_nil (fuel n : Nat) : natDigitsAux (fuel + 1) n ≠ [] := by
  unfold natDigitsAux
  split_ifs with h
  · simp
  · simp

/-- `natDigits n` is never the empty string. -/
theorem natDigits_ne_nil (n : Nat) : natDigits n ≠ [] :=
  natDigitsAux_ne_nil n n

/-- `pyLower` fixes strings of digits. -/
theorem map_pyLower_digits {l : List Char}
    (h : ∀ c ∈ l, isDigitCh c = true) : l.map pyLower = l := by
  induction l with
  | nil => rfl
  | cons c t ih =>
    simp only [List.map_cons, List.cons.injEq]
    exact ⟨pyLower_digit (h c (List.mem_cons_self c t)),
      ih (fun x hx => h x (List.mem_cons_of_mem c hx))⟩

/-- If a string maps under `pyLower` to a string of digits, it is that
string. -/
theorem eq_digits_of_map_pyLower {l digs : List Char}
    (hd : ∀ c ∈ digs, isDigitCh c = true) (h : l.map pyLower = digs) :
    l = digs := by
  induction digs generalizing l with
  | nil => simpa using h
  | cons d dt ih =>
    cases l with
    | nil => simp at h
    | cons c ct =>
      simp only [List.map_cons, List.cons.injEq] at h
      obtain ⟨h1, h2⟩ := h
      have hc : c = d :=
        eq_of_pyLower_digit (hd d (List.mem_cons_self d dt)) h1
      subst hc
      rw [ih (fun x hx => hd x (List.mem_cons_of_mem _ hx)) h2]

/-- Characterization of the case-insensitive literal matcher: it succeeds
with rest `rem` exactly when the input splits as a prefix whose lowercase
image is the pattern, followed by `rem`. -/
theorem matchCI_eq_some {pat s rem : List Char} :
    matchCI pat s = some rem ↔
      ∃ d, s = d ++ rem ∧ d.map pyLower = pat := by
  induction pat generalizing s with
  | nil =>
    simp only [matchCI, Option.some.injEq]
    constructor
    · rintro rfl
      exact ⟨[], rfl, rfl⟩
    · rintro ⟨d, rfl, hd⟩
      rw [List.map_eq_nil_iff] at hd
      rw [hd, List.nil_append]
  | cons p ps ih =>
    cases s with
    | nil =>
      simp only [matchCI]
      constructor
      · intro h; simp at h
      · rintro ⟨d, hd, hmap⟩
        cases d with
        | nil => simp at hmap
        | cons dh dt => exact List.noConfusion hd
    | cons c cs =>
      simp only [matchCI]
      split_ifs with hc
      · rw [ih]
        constructor
        · rintro ⟨d, rfl, hd⟩
          exact ⟨c :: d, rfl, by simp [hc, hd]⟩
        · rintro ⟨d, hd, hmap⟩
          cases d with
          | nil => simp at hmap
          | cons dh dt =>
            rw [List.cons_append] at hd
            obtain ⟨rfl, rfl⟩ : dh = c ∧ dt ++ rem = cs :=
              ⟨(List.cons.injEq _ _ _ _ ▸ hd).1.symm,
               (List.cons.injEq _ _ _ _ ▸ hd).2.symm⟩
            simp only [List.map_cons, List.cons.injEq] at hmap
            exact ⟨dt, rfl, hmap.2⟩
      · constructor
        · intro h; simp at h
        · rintro ⟨d, hd, hmap⟩
          cases d with
          | nil => simp at hmap
          | cons dh dt =>
            rw [List.cons_append] at hd
            have : dh = c := ((List.cons.injEq _ _ _ _ ▸ hd).1).symm
            subst this
            simp only [List.map_cons, List.cons.injEq] at hmap
            exact absurd hmap.1 hc

/-- `dropWhile` over a block of elements satisfying the predicate. -/
theorem dropWhile_append_of_forall {p : Char → Bool} {w : List Char}
    (hw : ∀ x ∈ w, p x = true) (s : List Char) :
    List.dropWhile p (w ++ s) = List.dropWhile p s := by
  induction w with
  | nil => rfl
  | cons a t ih =>
    rw [List.cons_append, List.dropWhile_cons,
      if_pos (hw a (List.mem_cons_self a t))]
    exact ih (fun x hx => hw x (List.mem_cons_of_mem a hx))

/-- `skipWs` jumps over a whitespace block onto a non-whitespace head. -/
theorem skipWs_ws_append {w : List Char} (hw : ∀ x ∈ w, isSpaceCh x = true)
    {c : Char} (hc : isSpaceCh c = false) (t : List Char) :
    skipWs (w ++ c :: t) = c :: t := by
  unfold skipWs
  rw [dropWhile_append_of_forall hw, List.dropWhile_cons, if_neg (by simp [hc])]

/-- Decomposition of a string at `skipWs`. -/
theorem skipWs_decompose (s : List Char) :
    s = s.takeWhile isSpaceCh ++ skipWs s ∧
      ∀ c ∈ s.takeWhile isSpaceCh, isSpaceCh c = true :=
  ⟨(List.takeWhile_append_dropWhile isSpaceCh s).symm,
   fun _ hc => List.mem_takeWhile_imp hc⟩

/-- The marker cannot match an empty string. -/
theorem matchMarkerTail_nil (digs : List Char) :
    matchMarkerTail digs [] = none := rfl

/-- Soundness of the marker matcher: a successful match yields the
declarative decomposition. -/
theorem matchMarkerTail_sound {digs s rem : List Char}
    (h : matchMarkerTail digs s = some rem) :
    ∃ d w1 o w2 g,
      s = d ++ w1 ++ o ++ w2 ++ g ++ rem ∧
      d.map pyLower = dayLit ∧ (∀ c ∈ w1, isSpaceCh c = true) ∧
      o.map pyLower = orderLit ∧ (∀ c ∈ w2, isSpaceCh c = true) ∧
      g.map pyLower = digs := by
  unfold matchMarkerTail at h
  cases h1 : matchCI dayLit s with
  | none => simp [h1] at h
  | some s1 =>
    simp only [h1] at h
    cases h2 : matchCI orderLit (skipWs s1) with
    | none => simp [h2] at h
    | some s2 =>
      simp only [h2] at h
      obtain ⟨d, hs, hd⟩ := matchCI_eq_some.mp h1
      obtain ⟨o, ho1, ho2⟩ := matchCI_eq_some.mp h2
      obtain ⟨g, hg1, hg2⟩ := matchCI_eq_some.mp h
      obtain ⟨hw1eq, hw1⟩ := skipWs_decompose s1
      obtain ⟨hw2eq, hw2⟩ := skipWs_decompose s2
      refine ⟨d, s1.takeWhile isSpaceCh, o, s2.takeWhile isSpaceCh, g,
        ?_, hd, hw1, ho2, hw2, hg2⟩
      conv_lhs => rw [hs, hw1eq, ho1, hw2eq, hg1]
      simp [List.append_assoc]

/-- Completeness of the marker matcher: the declarative decomposition
guarantees a successful match. -/
theorem matchMarkerTail_complete {n : Nat} {s : List Char}
    (h : MarkerAt n s) : ∃ rem, matchMarkerTail (natDigits n) s = some rem := by
  obtain ⟨d, w1, o, w2, rest, hs, hd, hw1, ho, hw2⟩ := h
  cases o with
  | nil => simp [orderLit] at ho
  | cons oh ot =>
    have hohl : pyLower oh = 'o' := by
      simpa [orderLit] using congrArg (fun l => l.headD 'x') ho
    have hohs : isSpaceCh oh = false :=
      not_space_of_pyLower (by decide) hohl
    cases hnd : natDigits n with
    | nil => exact absurd hnd (natDigits_ne_nil n)
    | cons gh gt =>
      have hghd : isDigitCh gh = true :=
        natDigits_digits n gh (by rw [hnd]; exact List.mem_cons_self _ _)
      have hghs : isSpaceCh gh = false := digit_not_space hghd
      refine ⟨rest, ?_⟩
      have h1 : matchCI dayLit s =
          some (w1 ++ ((oh :: ot) ++ (w2 ++ (natDigits n ++ rest)))) :=
        matchCI_eq_some.mpr ⟨d, by rw [hs]; simp [List.append_assoc], hd⟩
      have h1w : skipWs (w1 ++ ((oh :: ot) ++ (w2 ++ (natDigits n ++ rest)))) =
          oh :: (ot ++ (w2 ++ (natDigits n ++ rest))) := by
        rw [List.cons_append]
        exact skipWs_ws_append hw1 hohs _
      have h2 : matchCI orderLit (oh :: (ot ++ (w2 ++ (natDigits n ++ rest)))) =
          some (w2 ++ (natDigits n ++ rest)) :=
        matchCI_eq_some.mpr ⟨oh :: ot, by simp, ho⟩
      have h2w : skipWs (w2 ++ (natDigits n ++ rest)) =
          gh :: (gt ++ rest) := by
        rw [hnd, List.cons_append]
        exact skipWs_ws_append hw2 hghs _
      have h3 : matchCI (natDigits n) (gh :: (gt ++ rest)) = some rest := by
        refine matchCI_eq_some.mpr ⟨natDigits n, ?_, ?_⟩
        · rw [hnd, List.cons_append]
        · exact map_pyLower_digits (natDigits_digits n)
      unfold matchMarkerTail
      simp only [h1, h1w, h2, h2w]
      rw [← hnd]
      exact h3

/-- The scan finds nothing exactly when the marker matches at no offset. -/
theorem findMarkerPos_none_iff {digs text : List Char} :
    findMarkerPos digs text = none ↔
      ∀ i, matchMarkerTail digs (text.drop i) = none := by
  induction text with
  | nil =>
    simp only [findMarkerPos, List.drop_nil]
    exact ⟨fun _ _ => matchMarkerTail_nil digs, fun _ => trivial⟩
  | cons c t ih =>
    constructor
    · intro h i
      unfold findMarkerPos at h
      cases hm : matchMarkerTail digs (c :: t) with
      | some rem => simp [hm] at h
      | none =>
        simp only [hm, Option.map_eq_none'] at h
        cases i with
        | zero => exact hm
        | succ j => rw [List.drop_succ_cons]; exact ih.mp h j
    · intro h
      unfold findMarkerPos
      have h0 : matchMarkerTail digs (c :: t) = none := by
        have := h 0
        rwa [List.drop_zero] at this
      simp only [h0, Option.map_eq_none']
      exact ih.mpr (fun i => by
        have := h (i + 1)
        rwa [List.drop_succ_cons] at this)

/-- What a successful scan means: a marker match at the reported offset,
and no match at any earlier offset. -/
theorem findMarkerPos_some {digs text : List Char} {i k : Nat}
    (h : findMarkerPos digs text = some (i, k)) :
    (∃ rem, matchMarkerTail digs (text.drop i) = some rem) ∧
      ∀ j, j < i → matchMarkerTail digs (text.drop j) = none := by
  induction text generalizing i k with
  | nil => simp [findMarkerPos] at h
  | cons c t ih =>
    unfold findMarkerPos at h
    cases hm : matchMarkerTail digs (c :: t) with
    | some rem =>
      simp only [hm, Option.some.injEq, Prod.mk.injEq] at h
      obtain ⟨hi, _⟩ := h
      subst hi
      exact ⟨⟨rem, by simpa using hm⟩,
        fun j hj => absurd hj (Nat.not_lt_zero j)⟩
    | none =>
      simp only [hm] at h
      cases hf : findMarkerPos digs t with
      | none => simp [hf] at h
      | some p =>
        cases p with
        | mk i0 k0 =>
          rw [hf] at h
          simp only [Option.map_some', Option.some.injEq,
            Prod.mk.injEq] at h
          obtain ⟨hi, _⟩ := h
          obtain ⟨⟨rem, hrem⟩, hmin⟩ := ih hf
          subst hi
          constructor
          · exact ⟨rem, by rw [List.drop_succ_cons]; exact hrem⟩
          · intro j hj
            cases j with
            | zero => rw [List.drop_zero]; exact hm
            | succ j2 =>
              rw [List.drop_succ_cons]
              exact hmin j2 (by omega)

/-- Removing a trailing whitespace character does not change `rstripWs`. -/
theorem rstripWs_append_space {c : Char} (hc : isSpaceCh c = true)
    (x : List Char) : rstripWs (x ++ [c]) = rstripWs x := by
  unfold rstripWs
  have hrev : (x ++ [c]).reverse = c :: x.reverse := by simp
  rw [hrev, List.dropWhile_cons, if_pos (by simp [hc])]

/-- Removing a trailing whitespace character does not change `pyStrip`. -/
theorem pyStrip_append_space {c : Char} (hc : isSpaceCh c = true)
    (a : List Char) : pyStrip (a ++ [c]) = pyStrip a := by
  unfold pyStrip
  rw [List.dropWhile_append]
  split_ifs with h
  · rw [List.isEmpty_iff] at h
    rw [h]
    simp [List.dropWhile_cons, hc, List.dropWhile_nil]
  · exact rstripWs_append_space hc _

/-- The two lazy-stop offsets (with and without the special treatment of a
final newline by `$`) give the same stripped span. -/
theorem findStop_strip (r : List Char) :
    ∀ a, pyStrip (a ++ r.take (findStop r)) =
      pyStrip (a ++ r.take (findStopSpec r)) := by
  induction r with
  | nil => intro a; rfl
  | cons c t ih =>
    intro a
    unfold findStop findStopSpec
    split_ifs with h1 h2
    · rfl
    · obtain ⟨rfl, rfl⟩ := h2
      simp only [findStopSpec, List.take_zero, List.append_nil,
        List.take_succ_cons, Nat.add_zero, List.take_nil]
      exact (pyStrip_append_space (by decide) a).symm
    · have e1 : a ++ c :: List.take (findStop t) t =
          (a ++ [c]) ++ List.take (findStop t) t := by simp
      have e2 : a ++ c :: List.take (findStopSpec t) t =
          (a ++ [c]) ++ List.take (findStopSpec t) t := by simp
      rw [Nat.add_comm 1 (findStop t), Nat.add_comm 1 (findStopSpec t),
        List.take_succ_cons, List.take_succ_cons, e1, e2]
      exact ih (a ++ [c])

/-- A successful marker match yields the declarative occurrence (the
digit literal is fixed by `pyLower`, so the matched digits are exactly
`natDigits n`). -/
theorem markerAt_of_matchMarkerTail {n : Nat} {s rem : List Char}
    (h : matchMarkerTail (natDigits n) s = some rem) : MarkerAt n s := by
  obtain ⟨d, w1, o, w2, g, hs, hd, hw1, ho, hw2, hg⟩ := matchMarkerTail_sound h
  have hgd : g = natDigits n := eq_digits_of_map_pyLower (natDigits_digits n) hg
  subst hgd
  exact ⟨d, w1, o, w2, rem, hs, hd, hw1, ho, hw2⟩

/-- C4: for every day order `n` and document text, `extract_timetable`
returns the text span that starts at the first case-insensitive occurrence
of the marker `DAY ORDER n` and ends just before the next marker
`DAY ORDER <digit>` or at the end of the text (the stripped span, which
erases the one divergence of the regex anchor `$` at a final newline);
when the marker occurs nowhere in the text it returns the message
`Timetable for Day Order n not found.` instead of failing.  The third
conjunct pins down "first occurrence": the offset the search uses is a
real marker occurrence and no smaller offset is. -/
theorem extract_timetable_correct (n : Nat) (text : List Char) :
    extract_timetable n text = extractTimetableSpec n text ∧
    ((∀ i, ¬ MarkerAt n (text.drop i)) →
      extract_timetable n text = notFoundText n) ∧
    (∀ i k, findMarkerPos (natDigits n) text = some (i, k) →
      MarkerAt n (text.drop i) ∧ ∀ j, j < i → ¬ MarkerAt n (text.drop j)) := by
  refine ⟨?_, ?_, ?_⟩
  · unfold extract_timetable extractTimetableSpec
    cases hf : findMarkerPos (natDigits n) text with
    | none => rfl
    | some p =>
      cases p with
      | mk i k =>
        dsimp only
        have h1 : (text.drop i).take (k + findStop (text.drop (i + k))) =
            (text.drop i).take k ++
              (text.drop (i + k)).take (findStop (text.drop (i + k))) := by
          rw [List.take_add, List.drop_drop]
        have h2 : (text.drop i).take (k + findStopSpec (text.drop (i + k))) =
            (text.drop i).take k ++
              (text.drop (i + k)).take (findStopSpec (text.drop (i + k))) := by
          rw [List.take_add, List.drop_drop]
        rw [h1, h2]
        exact findStop_strip (text.drop (i + k)) ((text.drop i).take k)
  · intro h
    have hnone : findMarkerPos (natDigits n) text = none := by
      rw [findMarkerPos_none_iff]
      intro i
      cases hm : matchMarkerTail (natDigits n) (text.drop i) with
      | none => rfl
      | some rem => exact absurd (markerAt_of_matchMarkerTail hm) (h i)
    unfold extract_timetable
    rw [hnone]
  · intro i k hf
    obtain ⟨⟨rem, hrem⟩, hmin⟩ := findMarkerPos_some hf
    refine ⟨markerAt_of_matchMarkerTail hrem, ?_⟩
    intro j hj hmk
    obtain ⟨rem2, hrem2⟩ := matchMarkerTail_complete hmk
    rw [hmin j hj] at hrem2
    exact Option.noConfusion hrem2

/-- Witness for C4: the not-found branch at the empty text (where no
marker can occur), and the first-occurrence clause at a small text whose
marker sits at offset 0. -/
theorem extract_timetable_correct_witness :
    extract_timetable 1 [] = notFoundText 1 ∧
    MarkerAt 1 (("day order 1 maths".toList).drop 0) :=
  ⟨(extract_timetable_correct 1 []).2.1 (fun i h => by
      obtain ⟨d, w1, o, w2, rest, he, hd, _, _, _⟩ := h
      rw [List.drop_nil] at he
      have hdnil : d = [] := by
        have h2 := he.symm
        simp only [List.append_eq_nil] at h2
        exact h2.1.1.1.1.1
      rw [hdnil] at hd
      simp [dayLit] at hd),
   ((extract_timetable_correct 1 "day order 1 maths".toList).2.2 0 11
      (by decide)).1⟩

/-- A call of the cached extractor always returns the value of
`extract_timetable` and preserves cache well-formedness. -/
theorem cachedExtract_val {cache : TTCache} (hc : CacheWF cache)
    (n : Nat) (text : List Char) :
    (cachedExtract cache n text).1 = extract_timetable n text ∧
      CacheWF (cachedExtract cache n text).2 := by
  unfold cachedExtract
  cases hfind : cache.find? (fun e => e.1 == (n, text)) with
  | none =>
    simp only [hfind]
    refine ⟨by simp, ?_⟩
    intro e he
    have he2 : e ∈ ((n, text), extract_timetable n text) :: cache :=
      List.take_subset 8 _ he
    rcases List.mem_cons.mp he2 with rfl | h2
    · rfl
    · exact hc e h2
  | some e =>
    have hmem : e ∈ cache := List.mem_of_find?_eq_some hfind
    have hkey : e.1 = (n, text) := by
      have := List.find?_some hfind
      simpa using this
    simp only [hfind]
    constructor
    · rw [hc e hmem, hkey]
    · intro x hx
      rcases List.mem_cons.mp hx with rfl | hx2
      · exact hc x hmem
      · exact hc x (List.mem_of_mem_eraseP hx2)

/-- C10: the cached `extract_timetable` is idempotent.  Starting from any
well-formed cache, two consecutive calls with the identical
(day order, text) pair return the identical string. -/
theorem extract_timetable_idempotent {cache : TTCache} (hc : CacheWF cache)
    (n : Nat) (text : List Char) :
    (cachedExtract cache n text).1 =
      (cachedExtract (cachedExtract cache n text).2 n text).1 := by
  rw [(cachedExtract_val hc n text).1,
    (cachedExtract_val (cachedExtract_val hc n text).2 n text).1]

/-- Witness for C10: two cached calls on the initially empty cache. -/
theorem extract_timetable_idempotent_witness :
    (cachedExtract [] 1 "day order 1 x".toList).1 =
      (cachedExtract (cachedExtract [] 1 "day order 1 x".toList).2 1
        "day order 1 x".toList).1 :=
  extract_timetable_idempotent
    (fun e he => absurd he (List.not_mem_nil e)) 1 "day order 1 x".toList

/-- C6: a request whose message is missing, empty or whitespace-only is
answered with HTTP 400 and the exact reply `Please ask a question.`; no
request with a non-empty message is answered with 400 (every other branch
returns 200). -/
theorem chat_empty_message_400 (llm : List Char → List Char) (now : PyNow)
    (collegeData rawMsg sid : List Char) (store : SessionStore) :
    (pyStrip rawMsg = [] →
      (chat llm now collegeData rawMsg sid store).status = 400 ∧
      (chat llm now collegeData rawMsg sid store).reply = pleaseText) ∧
    (pyStrip rawMsg ≠ [] →
      (chat llm now collegeData rawMsg sid store).status ≠ 400) := by
  constructor
  · intro h
    unfold chat
    rw [if_pos h]
    exact ⟨rfl, rfl⟩
  · intro h
    unfold chat
    rw [if_neg h]
    dsimp only
    split_ifs <;> (try split) <;> simp [respond]

/-- Witness for C6 at a whitespace-only and at a non-empty message. -/
theorem chat_empty_message_400_witness :
    ((chat (fun _ => []) ⟨0, 0, 0⟩ [] "  ".toList "s".toList []).status = 400 ∧
     (chat (fun _ => []) ⟨0, 0, 0⟩ [] "  ".toList "s".toList []).reply =
       pleaseText) ∧
    (chat (fun _ => []) ⟨0, 0, 0⟩ [] "date".toList "s".toList []).status ≠ 400 :=
  ⟨(chat_empty_message_400 (fun _ => []) ⟨0, 0, 0⟩ [] "  ".toList
      "s".toList []).1 (by decide),
   (chat_empty_message_400 (fun _ => []) ⟨0, 0, 0⟩ [] "date".toList
      "s".toList []).2 (by decide)⟩

/-- Counterexample for C5 as stated: the empty-message rejection branch
produces a reply (`Please ask a question.`) but appends neither the user
message nor the reply to the session; the store is returned unchanged
(here: still empty). -/
theorem chat_empty_appends_nothing :
    (chat (fun _ => []) ⟨0, 0, 0⟩ [] "   ".toList "s".toList []).sessions
        = [] ∧
    (chat (fun _ => []) ⟨0, 0, 0⟩ [] "   ".toList "s".toList []).reply =
      pleaseText := ⟨rfl, rfl⟩

/-- C5 (amended): every branch that handles a non-empty message — date,
time, timetable, day order and LLM alike — appends both the user message
(stripped) and the assistant reply to the session before responding; the
empty-message rejection appends neither and leaves the store unchanged. -/
theorem chat_appends_turns (llm : List Char → List Char) (now : PyNow)
    (collegeData rawMsg sid : List Char) (store : SessionStore) :
    (pyStrip rawMsg ≠ [] →
      ∃ reply, (chat llm now collegeData rawMsg sid store).reply = reply ∧
        (chat llm now collegeData rawMsg sid store).sessions =
          setSession store sid
            (trim6 ((getSession store sid).getD []) ++
              [(roleUser, pyStrip rawMsg), (roleAssistant, reply)])) ∧
    (pyStrip rawMsg = [] →
      (chat llm now collegeData rawMsg sid store).sessions = store) := by
  constructor
  · intro h
    unfold chat trim6
    rw [if_neg h]
    dsimp only
    split_ifs <;> (try split) <;>
      exact ⟨_, rfl, by simp [respond, List.append_assoc]⟩
  · intro h
    unfold chat
    rw [if_pos h]

/-- Witness for the amended C5: a concrete date request appends exactly
the user turn and the date reply; a whitespace-only request leaves the
store unchanged. -/
theorem chat_appends_turns_witness :
    (∃ reply,
      (chat (fun _ => []) ⟨0, 0, 0⟩ [] "date".toList "s".toList []).reply =
        reply ∧
      (chat (fun _ => []) ⟨0, 0, 0⟩ [] "date".toList "s".toList []).sessions =
        setSession [] "s".toList
          (trim6 ((getSession [] "s".toList).getD []) ++
            [(roleUser, pyStrip "date".toList), (roleAssistant, reply)])) ∧
    (chat (fun _ => []) ⟨0, 0, 0⟩ [] " ".toList "s".toList []).sessions = [] :=
  ⟨(chat_appends_turns (fun _ => []) ⟨0, 0, 0⟩ [] "date".toList
      "s".toList []).1 (by decide),
   (chat_appends_turns (fun _ => []) ⟨0, 0, 0⟩ [] " ".toList
      "s".toList []).2 (by decide)⟩

/-- C7: any non-empty message whose lowercase form contains `date` or
`what day` is answered by the date branch — the reply is the formatted
date — and the result does not depend on the LLM oracle (no LLM call), no
matter which timetable or day-order keywords the message also contains.
In particular a message phrased `what day order ...` contains `what day`
and is answered here, so the day-order branch is unreachable for it. -/
theorem chat_date_branch (llm llm2 : List Char → List Char) (now : PyNow)
    (collegeData rawMsg sid : List Char) (store : SessionStore)
    (hne : pyStrip rawMsg ≠ [])
    (hkw : containsSub ((pyStrip rawMsg).map pyLower) "date".toList = true ∨
      containsSub ((pyStrip rawMsg).map pyLower) "what day".toList = true) :
    (chat llm now collegeData rawMsg sid store).reply = dateReply now ∧
    chat llm now collegeData rawMsg sid store =
      chat llm2 now collegeData rawMsg sid store := by
  have hc : (dateKws.any
      (fun k => containsSub ((pyStrip rawMsg).map pyLower) k)) = true := by
    have h2 : containsSub ((pyStrip rawMsg).map pyLower)
          ['d', 'a', 't', 'e'] = true ∨
        containsSub ((pyStrip rawMsg).map pyLower)
          ['w', 'h', 'a', 't', ' ', 'd', 'a', 'y'] = true := hkw
    simpa [dateKws] using h2
  constructor
  · unfold chat
    rw [if_neg hne]
    dsimp only
    rw [if_pos hc]
    rfl
  · unfold chat
    rw [if_neg hne, if_neg hne]
    dsimp only
    rw [if_pos hc, if_pos hc]

/-- Witness for C7: the message `what day order is it` (which contains the
day-order keyword) is answered by the date branch, identically under two
different LLM oracles. -/
theorem chat_date_branch_witness :
    (chat (fun _ => []) ⟨0, 0, 0⟩ [] "what day order is it".toList
        "s".toList []).reply = dateReply ⟨0, 0, 0⟩ ∧
    chat (fun _ => []) ⟨0, 0, 0⟩ [] "what day order is it".toList
        "s".toList [] =
      chat (fun p => p) ⟨0, 0, 0⟩ [] "what day order is it".toList
        "s".toList [] :=
  chat_date_branch (fun _ => []) (fun p => p) ⟨0, 0, 0⟩ []
    "what day order is it".toList "s".toList [] (by decide)
    (Or.inr (by decide))

/-- C8 (actual behavior, refuting the claimed one): on a Saturday the
request `timetable for tomorrow` is answered by the TIME branch — the
keyword test `"time" in message` matches the substring `time` inside
`timetable` and runs before the timetable branch — so the reply is the
current-time reply, not the Sunday no-classes reply; no LLM call is made
(the result is LLM-oracle independent).  The timetable branch is
unreachable for any message containing the word `timetable`. -/
theorem chat_timetable_tomorrow_time_branch (llm llm2 : List Char → List Char)
    (now : PyNow) (collegeData sid : List Char) (store : SessionStore)
    (_hsat : pyWeekday now.days = 5) :
    (chat llm now collegeData "timetable for tomorrow".toList sid
        store).reply = timeReply now ∧
    (chat llm now collegeData "timetable for tomorrow".toList sid
        store).reply ≠ sundayNoClassText ∧
    chat llm now collegeData "timetable for tomorrow".toList sid store =
      chat llm2 now collegeData "timetable for tomorrow".toList sid store := by
  refine ⟨rfl, ?_, rfl⟩
  intro h
  have h6 : timeReply now = sundayNoClassText := h
  have h5 : emClk = emCal := congrArg (fun l => l.headD ' ') h6
  exact absurd h5 (by decide)

/-- Witness for C8 on the Saturday 1970-01-03 (day number 2, weekday 5). -/
theorem chat_timetable_tomorrow_time_branch_witness :
    (chat (fun _ => []) ⟨2, 9, 30⟩ [] "timetable for tomorrow".toList
        "s".toList []).reply = timeReply ⟨2, 9, 30⟩ ∧
    (chat (fun _ => []) ⟨2, 9, 30⟩ [] "timetable for tomorrow".toList
        "s".toList []).reply ≠ sundayNoClassText ∧
    chat (fun _ => []) ⟨2, 9, 30⟩ [] "timetable for tomorrow".toList
        "s".toList [] =
      chat (fun p => p) ⟨2, 9, 30⟩ [] "timetable for tomorrow".toList
        "s".toList [] :=
  chat_timetable_tomorrow_time_branch (fun _ => []) (fun p => p) ⟨2, 9, 30⟩
    [] "s".toList [] (by decide)

/-- C1 (actual behavior, refuting the claimed bound): the handler trims
the session to the last six turns BEFORE appending, and only when the
length strictly exceeds six, so a session reaches eight stored turns.
Four consecutive `date` requests to the same initially absent session
leave 2, 4, 6 and finally 8 turns: the stored history exceeds six turns
right after the fourth append. -/
theorem chat_session_reaches_eight :
    ((getSession
      (chat (fun _ => []) ⟨0, 0, 0⟩ [] "date".toList "d".toList
        (chat (fun _ => []) ⟨0, 0, 0⟩ [] "date".toList "d".toList
          (chat (fun _ => []) ⟨0, 0, 0⟩ [] "date".toList "d".toList
            (chat (fun _ => []) ⟨0, 0, 0⟩ [] "date".toList "d".toList
              []).sessions).sessions).sessions).sessions
      "d".toList).getD []).length = 8 := by decide

/-- The month and day produced by the civil-from-days computation are
always in the calendar ranges. -/
theorem civilFromDays_bounds (n : Nat) :
    1 ≤ (civilFromDays n).2.1 ∧ (civilFromDays n).2.1 ≤ 12 ∧
    1 ≤ (civilFromDays n).2.2 ∧ (civilFromDays n).2.2 ≤ 31 := by
  unfold civilFromDays
  dsimp only
  split_ifs <;> omega

/-- `natDigitsAux` does not depend on the fuel, as long as there is
enough of it. -/
theorem natDigitsAux_fuel {f1 : Nat} : ∀ {f2 n : Nat}, n < f1 → n < f2 →
    natDigitsAux f1 n = natDigitsAux f2 n := by
  induction f1 with
  | zero => intro f2 n h1 _; exact absurd h1 (Nat.not_lt_zero n)
  | succ f ih =>
    intro f2 n h1 h2
    cases f2 with
    | zero => exact absurd h2 (Nat.not_lt_zero n)
    | succ g =>
      unfold natDigitsAux
      split_ifs with h
      · rfl
      · exact congrArg (fun l => l ++ [digitCh (n % 10)])
          (@ih g (n / 10) (by omega) (by omega))

/-- One digit for values below ten. -/
theorem natDigits_small {n : Nat} (h : n < 10) :
    natDigits n = [digitCh n] := by
  unfold natDigits natDigitsAux
  rw [if_pos h]

/-- Peeling the last digit for values of ten or more. -/
theorem natDigits_step {n : Nat} (h : 10 ≤ n) :
    natDigits n = natDigits (n / 10) ++ [digitCh (n % 10)] := by
  unfold natDigits
  conv_lhs => rw [natDigitsAux]
  rw [if_neg (by omega)]
  exact congrArg (fun l => l ++ [digitCh (n % 10)])
    (@natDigitsAux_fuel n (n / 10 + 1) (n / 10) (by omega) (by omega))

/-- Two digits for values in 10..99. -/
theorem natDigits_len2 {n : Nat} (h1 : 10 ≤ n) (h2 : n < 100) :
    (natDigits n).length = 2 := by
  rw [natDigits_step h1, natDigits_small (by omega)]
  rfl

/-- Three digits for values in 100..999. -/
theorem natDigits_len3 {n : Nat} (h1 : 100 ≤ n) (h2 : n < 1000) :
    (natDigits n).length = 3 := by
  rw [natDigits_step (by omega), List.length_append,
    natDigits_len2 (by omega) (by omega)]
  rfl

/-- Four digits for values in 1000..9999 (the `%Y` field of a
contemporary date). -/
theorem natDigits_len4 {n : Nat} (h1 : 1000 ≤ n) (h2 : n < 10000) :
    (natDigits n).length = 4 := by
  rw [natDigits_step (by omega), List.length_append,
    natDigits_len3 (by omega) (by omega)]
  rfl

/-- `pad2` of a value below 100 is two digit characters. -/
theorem pad2_spec {n : Nat} (h : n < 100) :
    (pad2 n).length = 2 ∧ ∀ c ∈ pad2 n, isDigitCh c = true := by
  unfold pad2
  split_ifs with h10
  · rw [natDigits_small h10]
    refine ⟨rfl, ?_⟩
    intro c hc
    rcases List.mem_cons.mp hc with rfl | hc2
    · decide
    · rcases List.mem_singleton.mp hc2 with rfl
      exact digitCh_isDigit n
  · refine ⟨natDigits_len2 (by omega) h, natDigits_digits n⟩

/-- The weekday name of any day number is one of the seven names. -/
theorem weekdayName_mem (d : Nat) : weekdayName (pyWeekday d) ∈ weekdayNames := by
  have h7 : pyWeekday d < 7 := Nat.mod_lt _ (by omega)
  have hlen : weekdayNames.length = 7 := rfl
  unfold weekdayName
  rw [List.getD_eq_getElem _ _ (by omega)]
  exact List.getElem_mem _

/-- The month name of a month in 1..12 is one of the twelve names. -/
theorem monthName_mem {m : Nat} (h1 : 1 ≤ m) (h2 : m ≤ 12) :
    monthName m ∈ monthNames := by
  have hlen : monthNames.length = 12 := rfl
  unfold monthName
  rw [List.getD_eq_getElem _ _ (by omega)]
  exact List.getElem_mem _

/-- C9: the request `What's the date?` is answered (for any current date
whose year has four digits) with the date reply, whose text after the
calendar emoji matches the pattern
`Today is <Weekday>, <Month> <DD>, <YYYY>.` — a weekday name, a month
name, a zero-padded two-digit day and a four-digit year — and the result
does not depend on the LLM oracle (no LLM call). -/
theorem chat_whats_the_date (llm llm2 : List Char → List Char) (now : PyNow)
    (collegeData sid : List Char) (store : SessionStore)
    (hy1 : 1000 ≤ (civilFromDays now.days).1)
    (hy2 : (civilFromDays now.days).1 < 10000) :
    ∃ w mo dd yy,
      w ∈ weekdayNames ∧ mo ∈ monthNames ∧
      dd.length = 2 ∧ (∀ c ∈ dd, isDigitCh c = true) ∧
      yy.length = 4 ∧ (∀ c ∈ yy, isDigitCh c = true) ∧
      (chat llm now collegeData whatsTheDateMsg sid store).reply =
        [emCal, ' '] ++ "Today is ".toList ++
          (w ++ ", ".toList ++ mo ++ " ".toList ++ dd ++ ", ".toList ++ yy) ++
          ['.'] ∧
      chat llm now collegeData whatsTheDateMsg sid store =
        chat llm2 now collegeData whatsTheDateMsg sid store := by
  obtain ⟨hm1, hm2, _hd1, hd2⟩ := civilFromDays_bounds now.days
  exact ⟨weekdayName (pyWeekday now.days),
    monthName (civilFromDays now.days).2.1,
    pad2 (civilFromDays now.days).2.2,
    natDigits (civilFromDays now.days).1,
    weekdayName_mem now.days, monthName_mem hm1 hm2,
    (pad2_spec (by omega)).1, (pad2_spec (by omega)).2,
    natDigits_len4 hy1 hy2, natDigits_digits _, rfl, rfl⟩

/-- Witness for C9 at day number 20000 (2024-10-04). -/
theorem chat_whats_the_date_witness :
    ∃ w mo dd yy,
      w ∈ weekdayNames ∧ mo ∈ monthNames ∧
      dd.length = 2 ∧ (∀ c ∈ dd, isDigitCh c = true) ∧
      yy.length = 4 ∧ (∀ c ∈ yy, isDigitCh c = true) ∧
      (chat (fun _ => []) ⟨20000, 0, 0⟩ [] whatsTheDateMsg "s".toList
        []).reply =
        [emCal, ' '] ++ "Today is ".toList ++
          (w ++ ", ".toList ++ mo ++ " ".toList ++ dd ++ ", ".toList ++ yy) ++
          ['.'] ∧
      chat (fun _ => []) ⟨20000, 0, 0⟩ [] whatsTheDateMsg "s".toList [] =
        chat (fun p => p) ⟨20000, 0, 0⟩ [] whatsTheDateMsg "s".toList [] :=
  chat_whats_the_date (fun _ => []) (fun p => p) ⟨20000, 0, 0⟩ [] "s".toList
    [] (by decide) (by decide)

/-- Counterexample for C4 exactly as stated: the function does not return
the raw text span.  In `day order 1x ` the marker for day order 1 occurs
at offset 0 and no further marker follows, so the claimed span runs to the
end of the text (`day order 1x `, with the trailing blank); the function
returns the span with surrounding whitespace stripped (`day order 1x`). -/
theorem extract_timetable_span_counterexample :
    extract_timetable 1 "day order 1x ".toList ≠ "day order 1x ".toList ∧
    extract_timetable 1 "day order 1x ".toList = "day order 1x".toList ∧
    MarkerAt 1 ("day order 1x ".toList) :=
  ⟨by decide, by decide,
   ⟨"day".toList, [' '], "order".toList, [' '], "x ".toList,
    by decide, by decide, by decide, by decide, by decide⟩⟩
